import Mathlib

/-!
Verification development for the Code Amplifier analysis pipeline.

The model below is a shallow embedding of the three source files:
  * `src/src/App.tsx` — `validateCode`/`processFile` (per-file analysis
    requests and response interpretation), `runCode`/`checkResult`
    (Judge0 submit + poll loop);
  * `src/unnamed/part_001` (`ValidationResults.tsx`) —
    `processAnalysisResult` (narrative cleaning and section
    classification).

Strings are modelled as `List Char` (JavaScript strings restricted to the
code points the program actually manipulates); the JS regular expressions
used by the source are modelled by explicit leftmost-match scanners whose
behaviour is derived from ECMAScript regex semantics (leftmost start
position, lazy `[\s\S]*?` interiors, greedy optional groups).
-/

namespace CodeAmplifier

/-- JS whitespace test as used by `String.prototype.trim`, restricted to the
ASCII whitespace characters (`' '`, `'\t'`, `'\r'`, `'\n'`) that the
program's data can contain. -/
def jsWs (c : Char) : Bool := c.isWhitespace

/-- Drop leading whitespace, as the first half of JS `.trim()`. -/
def trimStartWs (l : List Char) : List Char := l.dropWhile jsWs

/-- Drop trailing whitespace, as the second half of JS `.trim()`. -/
def trimEndWs (l : List Char) : List Char := (l.reverse.dropWhile jsWs).reverse

/-- JS `String.prototype.trim`. -/
def jsTrim (l : List Char) : List Char := trimEndWs (trimStartWs l)

/-- JS `x || dflt` on an optional string: `undefined`/`null` and the empty
string are falsy and select the default. -/
def jsOrStr (v : Option (List Char)) (dflt : List Char) : List Char :=
  match v with
  | none => dflt
  | some s => if s.isEmpty then dflt else s

/-- Index of the leftmost occurrence of `pat` in `s` (the start position a JS
regex engine would report for a literal pattern), `none` if `pat` occurs
nowhere. -/
def findPat (pat : List Char) : List Char → Option Nat
  | [] => if pat.isPrefixOf ([] : List Char) then some 0 else none
  | c :: cs =>
    if pat.isPrefixOf (c :: cs) then some 0
    else (findPat pat cs).map (· + 1)

/-- The literal `<SCORE:` opening of the score tag regex `/<SCORE:(\d+)>/`. -/
def scoreOpen : List Char := ['<', 'S', 'C', 'O', 'R', 'E', ':']

/-- Attempt to match the full score tag `/<SCORE:\d+>/` at the head of `s`.
On success returns the digit group and the remainder of `s` after the tag.
`\d+` is greedy, but since the character after a shorter digit run would be a
digit (not `>`), the regex matches at a position exactly when the maximal
digit run after `<SCORE:` is nonempty and is followed by `>`. -/
def scoreTagAt (s : List Char) : Option (List Char × List Char) :=
  if scoreOpen.isPrefixOf s then
    let after := s.drop 7
    let ds := after.takeWhile Char.isDigit
    if ds.isEmpty then none
    else
      match after.dropWhile Char.isDigit with
      | '>' :: tail => some (ds, tail)
      | _ => none
  else none

/-- Digit group of the leftmost match of `/<SCORE:(\d+)>/` in `s`
(`aiResponse.match(/<SCORE:(\d+)>/)?.[1]` in `App.tsx:85`). -/
def scoreGroup : List Char → Option (List Char)
  | [] => none
  | c :: cs =>
    match scoreTagAt (c :: cs) with
    | some (ds, _) => some ds
    | none => scoreGroup cs

/-- `parseInt` on a nonempty all-digit string. -/
def digitsToNat (ds : List Char) : Nat :=
  ds.foldl (fun n c => n * 10 + (c.toNat - 48)) 0

/-- `App.tsx:85-86`:
`Math.min(Math.max(parseInt(scoreMatch?.[1] || "0"), 0), 100)`.
The digit group is never negative, so `Math.max (·, 0)` is the identity and
only the upper clamp remains. -/
def extractScore (s : List Char) : Nat :=
  match scoreGroup s with
  | none => 0
  | some ds => min (digitsToNat ds) 100

/-- One pass of the global replacement `.replace(/<SCORE:\d+>/g, "")`
(`part_001:52`), fuelled by the input length: a full tag at the current
position is deleted and scanning resumes after it, otherwise one character is
kept.  A successful tag consumes at least nine characters for one unit of
fuel, so `fuel = s.length` always suffices. -/
def removeScoreAux : Nat → List Char → List Char
  | 0, s => s
  | _ + 1, [] => []
  | fuel + 1, c :: cs =>
    match scoreTagAt (c :: cs) with
    | some (_, rest) => removeScoreAux fuel rest
    | none => c :: removeScoreAux fuel cs

/-- `result.replace(/<SCORE:\d+>/g, "")` (`part_001:52`). -/
def removeScoreTags (s : List Char) : List Char := removeScoreAux s.length s

example : extractScore "<SCORE:85> good".toList = 85 := by decide
example : extractScore "<SCORE:150>".toList = 100 := by decide
example : extractScore "<SCORE:-5>".toList = 0 := by decide
example : extractScore "no tag".toList = 0 := by decide
example : removeScoreTags "a<SCORE:12>b<SCORE:3>c".toList = "abc".toList := by
  decide

/-- Opening marker of the thinking-block regex `/<think>[\s\S]*?<\/think>/g`. -/
def thinkOpen : List Char := ['<', 't', 'h', 'i', 'n', 'k', '>']

/-- Closing marker of the thinking-block regex. -/
def thinkClose : List Char := ['<', '/', 't', 'h', 'i', 'n', 'k', '>']

/-- One fuelled pass of `.replace(/<think>[\s\S]*?<\/think>/g, "")`
(`part_001:53`): each match runs from an occurrence of `<think>` to the
nearest `</think>` after it (lazy interior), matches are removed left to
right without rescanning the removed text, and an unclosed `<think>` leaves
the rest of the string untouched (no later start position can complete a
match either, since a closing marker after a later opening would already
have served the earlier one). -/
def removeThinkAux : Nat → List Char → List Char
  | 0, s => s
  | fuel + 1, s =>
    match findPat thinkOpen s with
    | none => s
    | some i =>
      let rest := s.drop (i + 7)
      match findPat thinkClose rest with
      | none => s
      | some j => s.take i ++ removeThinkAux fuel (rest.drop (j + 8))

/-- `.replace(/<think>[\s\S]*?<\/think>/g, "")` (`part_001:53`).  Each
removed span consumes at least fifteen characters per unit of fuel, so
`fuel = s.length` always suffices. -/
def removeThink (s : List Char) : List Char := removeThinkAux s.length s

example :
    removeThink "a<think>x</think>b<think>y</think>c".toList = "abc".toList := by
  decide
example : removeThink "a<think>no close".toList = "a<think>no close".toList := by
  decide

/-- The triple-backtick fence delimiter of `/```(?:\w+\n)?([\s\S]*?)```/`. -/
def fence : List Char := ['`', '`', '`']

/-- Decompose `s` around its first fenced code block: the leftmost `` ``` ``
occurrence opens the block and the leftmost `` ``` `` occurrence after it
closes it (lazy interior).  Returns `(pre, body, post)` with
`s = pre ++ fence ++ body ++ fence ++ post`, or `none` when no complete
block exists.  If the earliest opening fence has no closing fence then no
later start position has one either, so the regex fails everywhere, matching
the `none` result. -/
def firstFence (s : List Char) : Option (List Char × List Char × List Char) :=
  match findPat fence s with
  | none => none
  | some i =>
    let rest := s.drop (i + 3)
    match findPat fence rest with
    | none => none
    | some j => some (s.take i, rest.take j, rest.drop (j + 3))

/-- JS `\w` character class. -/
def isWordChar (c : Char) : Bool := c.isAlphanum || c == '_'

/-- Effect of the optional greedy language-tag group `(?:\w+\n)?` on the
block interior: the group participates exactly when the interior starts with
one or more word characters followed immediately by a newline (a shorter
greedy run would be followed by another word character, not `\n`), in which
case the capture starts after that newline. -/
def stripLang (body : List Char) : List Char :=
  let ws := body.takeWhile isWordChar
  if ws.isEmpty then body
  else
    match body.dropWhile isWordChar with
    | '\n' :: tail => tail
    | _ => body

/-- Capture group of `aiResponse.match(/```(?:\w+\n)?([\s\S]*?)```/)`,
trimmed (`App.tsx:88-89`): the first fenced block's interior, with an
optional language tag stripped. -/
def extractCorrected (s : List Char) : Option (List Char) :=
  (firstFence s).map (fun t => jsTrim (stripLang t.2.1))

/-- `hasCorrections: !!correctedCode` (`App.tsx:98`): JS `!!` is false on
`undefined` and on the empty string. -/
def hasCorrectionsOf (s : List Char) : Bool :=
  match extractCorrected s with
  | none => false
  | some t => !t.isEmpty

/-- `aiResponse.replace(/```[\s\S]*?```/, "")` (`App.tsx:95`): the first
fenced block (opening fence, lazy interior, closing fence) is removed; with
no `g` flag only the first match is replaced. -/
def removeFirstFence (s : List Char) : List Char :=
  match firstFence s with
  | none => s
  | some (pre, _, post) => pre ++ post

example :
    extractCorrected "x```js\ncode here```y```second```".toList
      = some "code here".toList := by decide
example : extractCorrected "no block ``".toList = none := by decide
example :
    removeFirstFence "a```one```b```two```".toList = "ab```two```".toList := by
  decide
example : hasCorrectionsOf "``` ```".toList = false := by decide
example : hasCorrectionsOf "```x```".toList = true := by decide

/-- The narrative stored in a successful outcome:
`aiResponse.replace(/```[\s\S]*?```/, "").trim()` (`App.tsx:95`). -/
def storedNarrative (aiResponse : List Char) : List Char :=
  jsTrim (removeFirstFence aiResponse)

/-- `cleanedResult` of `processAnalysisResult` (`part_001:51-54`): the stored
narrative with all score tags removed, then all thinking blocks removed,
then trimmed. -/
def cleanedNarrative (result : List Char) : List Char :=
  jsTrim (removeThink (removeScoreTags result))

/-- The narrative text the user sees, as produced by the two stages in
sequence: `processFile` stores `storedNarrative aiResponse` in the outcome's
`result` field, and `processAnalysisResult` cleans that stored string before
splitting it into sections. -/
def displayedNarrative (aiResponse : List Char) : List Char :=
  cleanedNarrative (storedNarrative aiResponse)

/-- JS `"x".split('\n')`: splits on every newline and keeps empty pieces
(`part_001:64`). -/
def splitOnNl : List Char → List (List Char)
  | [] => [[]]
  | c :: cs =>
    if c = '\n' then [] :: splitOnNl cs
    else
      match splitOnNl cs with
      | [] => [[c]]
      | l :: ls => (c :: l) :: ls

example : splitOnNl "a\nb\n".toList = ["a".toList, "b".toList, []] := by decide

/-- The four narrative sections of `processAnalysisResult` (`part_001:57-62`). -/
inductive SectionName where
  | analysis
  | suggestions
  | security
  | performance
deriving DecidableEq, Repr

/-- The `sections` object of `processAnalysisResult`. -/
structure Sections where
  analysis : List (List Char)
  suggestions : List (List Char)
  security : List (List Char)
  performance : List (List Char)
deriving DecidableEq, Repr

/-- The initial empty `sections` object. -/
def emptySections : Sections := ⟨[], [], [], []⟩

/-- `line.toLowerCase().includes(kw)` for a lowercase keyword `kw`
(`part_001:68-74`); `Char.toLower` models the ASCII part of JS
`toLowerCase`. -/
def containsKw (line kw : List Char) : Bool :=
  (findPat kw (line.map Char.toLower)).isSome

/-- `security`/`vulnerability` trigger of `part_001:69`. -/
def securityTrigger (line : List Char) : Bool :=
  containsKw line "security".toList || containsKw line "vulnerability".toList

/-- `performance`/`optimization` trigger of `part_001:71`. -/
def performanceTrigger (line : List Char) : Bool :=
  containsKw line "performance".toList || containsKw line "optimization".toList

/-- `suggestion`/`recommendation` trigger of `part_001:73`. -/
def suggestionsTrigger (line : List Char) : Bool :=
  containsKw line "suggestion".toList || containsKw line "recommendation".toList

/-- Cursor update of the `if/else if` chain (`part_001:68-75`): triggers are
evaluated in the fixed order security, performance, suggestions, and a line
matching no trigger keeps the current section. -/
def classifyLine (cur : SectionName) (line : List Char) : SectionName :=
  if securityTrigger line then .security
  else if performanceTrigger line then .performance
  else if suggestionsTrigger line then .suggestions
  else cur

/-- `sections[sec].push(l)` (`part_001:78`). -/
def pushSection (secs : Sections) (sec : SectionName) (l : List Char) : Sections :=
  match sec with
  | .analysis => { secs with analysis := secs.analysis ++ [l] }
  | .suggestions => { secs with suggestions := secs.suggestions ++ [l] }
  | .security => { secs with security := secs.security ++ [l] }
  | .performance => { secs with performance := secs.performance ++ [l] }

/-- Body of the `lines.forEach` loop (`part_001:67-80`): update the cursor,
then append the trimmed line to the current section when it is non-blank. -/
def stepLine (st : SectionName × Sections) (line : List Char) :
    SectionName × Sections :=
  let sec := classifyLine st.1 line
  let t := jsTrim line
  (sec, if t.isEmpty then st.2 else pushSection st.2 sec t)

/-- `processAnalysisResult` (`part_001:49-83`): clean the stored narrative,
split it into lines, and bucket every non-blank trimmed line into the
section selected by a single sticky cursor initialised to `analysis`. -/
def processAnalysisResult (result : List Char) : Sections :=
  ((splitOnNl (cleanedNarrative result)).foldl stepLine
    (SectionName.analysis, emptySections)).2

example :
    processAnalysisResult "hello\n\nPerformance: slow\nmore".toList
      = { analysis := ["hello".toList],
          suggestions := [],
          security := [],
          performance := ["Performance: slow".toList, "more".toList] } := by
  decide

/-- An uploaded file as built by `handleFilesSelected` (`App.tsx:34-46`). -/
structure FileWithContent where
  name : List Char
  path : List Char
  content : List Char
  extension : List Char
deriving DecidableEq, Repr

/-- A per-file outcome as built by `processFile` (`App.tsx:91-114`). -/
structure ValidationResult where
  fileName : List Char
  path : List Char
  code : List Char
  result : List Char
  score : Nat
  correctedCode : Option (List Char)
  hasCorrections : Bool
deriving DecidableEq, Repr

/-- How one file's analysis request settles, as observed by `processFile`
(`App.tsx:58-115`):
  * `networkError msg` — `fetch` itself rejected; `msg` is the thrown
    `Error`'s message, `none` when a non-`Error` value was thrown;
  * `httpError status` — the response arrived with `!response.ok`, making
    `processFile` throw `` new Error(`Server error: ${status}`) ``;
  * `bodyError msg` — `response.json()` rejected while reading the body;
  * `ok content` — a 2xx response whose
    `data?.choices?.[0]?.message?.content` is `content` (`none` when the
    body lacks that path). -/
inductive FetchResult where
  | networkError (msg : Option (List Char))
  | httpError (status : Nat)
  | bodyError (msg : Option (List Char))
  | ok (content : Option (List Char))
deriving DecidableEq, Repr

/-- Whether the fetch settles on the `catch` path of `processFile`. -/
def FetchResult.isFailure : FetchResult → Bool
  | .ok _ => false
  | _ => true

/-- The fallback of `error instanceof Error ? error.message :
"Failed to analyze code"` (`App.tsx:110`). -/
def failFallback : List Char := "Failed to analyze code".toList

/-- The message carried by the error caught in `processFile`'s `catch`
block, for each failure shape. -/
def FetchResult.failureMessage : FetchResult → List Char
  | .networkError msg => msg.getD failFallback
  | .httpError status => "Server error: ".toList ++ (toString status).toList
  | .bodyError msg => msg.getD failFallback
  | .ok _ => []

/-- The `"No response received."` fallback of `App.tsx:83`. -/
def noResponseText : List Char := "No response received.".toList

/-- The error-shaped outcome appended by `processFile`'s `catch` block
(`App.tsx:104-114`). -/
def errorOutcome (f : FileWithContent) (msg : List Char) : ValidationResult :=
  { fileName := f.name
    path := f.path
    code := f.content
    result := "Error: ".toList ++ msg
    score := 0
    correctedCode := none
    hasCorrections := false }

/-- `processFile` (`App.tsx:55-116`) as a function of the file and of how
its request settles: the success branch parses the response
(`App.tsx:82-99`), every failure shape lands in the single `catch` block. -/
def processFile (f : FileWithContent) (fr : FetchResult) : ValidationResult :=
  match fr with
  | .ok content =>
    let aiResponse := jsOrStr content noResponseText
    { fileName := f.name
      path := f.path
      code := f.content
      result := storedNarrative aiResponse
      score := extractScore aiResponse
      correctedCode := extractCorrected aiResponse
      hasCorrections := hasCorrectionsOf aiResponse }
  | .networkError msg => errorOutcome f ((FetchResult.networkError msg).failureMessage)
  | .httpError status => errorOutcome f ((FetchResult.httpError status).failureMessage)
  | .bodyError msg => errorOutcome f ((FetchResult.bodyError msg).failureMessage)

/-- Helper for `validateCode`: process the files in order, file `k + i`
settling according to `net (k + i)`. -/
def validateCodeAux (net : Nat → FetchResult) (k : Nat) :
    List FileWithContent → List ValidationResult
  | [] => []
  | f :: fs => processFile f (net k) :: validateCodeAux net (k + 1) fs

/-- `validateCode` (`App.tsx:49-120`): one independent request per file,
joined with `Promise.all` over per-file `try/catch` blocks, so every file
contributes exactly one outcome.  `net i` is how file `i`'s request settles;
the results collection is presented in input order (the source appends
outcomes in settlement order, a permutation of this list determined by
network timing only). -/
def validateCode (files : List FileWithContent) (net : Nat → FetchResult) :
    List ValidationResult :=
  validateCodeAux net 0 files

/-- One Judge0 poll response body, as read by `checkResult`
(`App.tsx:136-142`): `status.id`, `stdout` (`none` models JS `null`) and
`stderr`. -/
structure PollResponse where
  statusId : Nat
  stdout : Option (List Char)
  stderr : List Char
deriving DecidableEq, Repr

/-- Terminal display of `App.tsx:141`:
`resultResponse.data.stdout || "Error: " + resultResponse.data.stderr`. -/
def surfaceOutput (r : PollResponse) : List Char :=
  jsOrStr r.stdout ("Error: ".toList ++ r.stderr)

/-- The poll loop of `checkResult` over a script of successive poll
responses: a status id ≤ 2 schedules exactly one further poll, any other id
is terminal and surfaces the output immediately.  Returns the surfaced
output together with the number of non-terminal polls that preceded it,
`none` when the script runs out before a terminal status (the loop would
still be polling). -/
def runPolls : List PollResponse → Option (List Char × Nat)
  | [] => none
  | r :: rs =>
    if r.statusId ≤ 2 then (runPolls rs).map (fun p => (p.1, p.2 + 1))
    else some (surfaceOutput r, 0)

/-- One scheduled `checkResult` invocation: the `axios.get` either rejects
(`fail`) or yields a poll response. -/
inductive PollStep where
  | fail
  | respond (r : PollResponse)
deriving DecidableEq, Repr

/-- The displayed `executionOutput` after the poll timers run, starting from
the currently displayed text `cur`.  `checkResult` runs from a `setTimeout`
callback, outside any `try`, so a rejected poll request stops the loop
without writing the output slot (`App.tsx:135-145`); only a terminal
response overwrites it. -/
def pollLoop : List PollStep → List Char → List Char
  | [], cur => cur
  | .fail :: _, cur => cur
  | .respond r :: rs, cur =>
    if r.statusId ≤ 2 then pollLoop rs cur else surfaceOutput r

/-- How `runCode`'s submit request settles: the `axios.post` inside the
`try` either throws (caught by `runCode`'s handler) or yields a token and
the subsequent polls follow `script`. -/
inductive SubmitOutcome where
  | submitFailed
  | submitted (token : List Char) (script : List PollStep)

/-- `runCode` (`App.tsx:123-150`): the output slot is first set to
`"Running..."`; a submit failure is caught and displays
`"Execution failed."`; otherwise the poll loop takes over with
`"Running..."` still displayed. -/
def runCode : SubmitOutcome → List Char
  | .submitFailed => "Execution failed.".toList
  | .submitted _ script => pollLoop script "Running...".toList

example :
    runPolls
      [⟨1, none, []⟩, ⟨1, none, []⟩, ⟨3, some "OK".toList, []⟩]
      = some ("OK".toList, 2) := by decide

/-! ### Lemmas about the scanning primitives -/

lemma findPat_of_isPrefixOf {pat s : List Char} (h : pat.isPrefixOf s = true) :
    findPat pat s = some 0 := by
  cases s with
  | nil => simp [findPat, h]
  | cons c cs => simp [findPat, h]

lemma findPat_cons_none {pat : List Char} {c : Char} {cs : List Char}
    (h : findPat pat (c :: cs) = none) :
    pat.isPrefixOf (c :: cs) = false ∧ findPat pat cs = none := by
  by_cases hp : pat.isPrefixOf (c :: cs)
  · simp [findPat, hp] at h
  · refine ⟨by simp [hp], ?_⟩
    simpa [findPat, hp] using h

lemma findPat_isSome_iff {pat s : List Char} :
    (findPat pat s).isSome = true ↔ pat <:+: s := by
  induction s with
  | nil =>
    constructor
    · intro hsome
      by_cases hp : pat.isPrefixOf ([] : List Char)
      · exact (List.isPrefixOf_iff_prefix.mp hp).isInfix
      · simp [findPat, hp] at hsome
    · intro hinf
      have hpat : pat = [] := by simpa using hinf
      subst hpat
      simp [findPat, List.isPrefixOf]
  | cons c cs ih =>
    rw [List.infix_cons_iff]
    by_cases hp : pat.isPrefixOf (c :: cs)
    · simp only [findPat, hp, if_true, Option.isSome_some, true_iff]
      exact Or.inl (List.isPrefixOf_iff_prefix.mp hp)
    · have hres : (findPat pat (c :: cs)).isSome = (findPat pat cs).isSome := by
        simp [findPat, hp]
      rw [hres, ih]
      constructor
      · exact Or.inr
      · rintro (h | h)
        · exact absurd (List.isPrefixOf_iff_prefix.mpr h) (by simp [hp])
        · exact h

lemma findPat_none_mono {pat t s : List Char} (hsub : t <:+: s)
    (h : findPat pat s = none) : findPat pat t = none := by
  cases hv : findPat pat t with
  | none => rfl
  | some i =>
    have h1 : (findPat pat t).isSome = true := by simp [hv]
    have h2 : pat <:+: s := (findPat_isSome_iff.mp h1).trans hsub
    have h3 := findPat_isSome_iff.mpr h2
    simp [h] at h3

/-! ### Lemmas about trimming -/

lemma dropWhile_head_false {p : Char → Bool} {l : List Char} {c : Char}
    {t : List Char} (h : l.dropWhile p = c :: t) : p c = false := by
  induction l with
  | nil => simp [List.dropWhile] at h
  | cons a as ih =>
    by_cases hp : p a
    · rw [List.dropWhile_cons_of_pos hp] at h
      exact ih h
    · rw [List.dropWhile_cons_of_neg hp] at h
      cases h
      simpa using hp

lemma dropWhile_idem {p : Char → Bool} (l : List Char) :
    (l.dropWhile p).dropWhile p = l.dropWhile p := by
  cases h : l.dropWhile p with
  | nil => simp
  | cons c t =>
    rw [List.dropWhile_cons_of_neg]
    simp [dropWhile_head_false h]

lemma trimEndWs_prefixP (l : List Char) : trimEndWs l <+: l := by
  have h1 : l.reverse.dropWhile jsWs <:+ l.reverse := List.dropWhile_suffix _
  rw [← List.reverse_reverse (l.reverse.dropWhile jsWs)] at h1
  exact List.reverse_suffix.mp h1

lemma jsTrim_le (l : List Char) : jsTrim l <:+: l := by
  have h1 : trimStartWs l <:+ l := List.dropWhile_suffix _
  have h2 : jsTrim l <+: trimStartWs l := trimEndWs_prefixP _
  exact h2.isInfix.trans h1.isInfix

lemma trimStartWs_eq_self {l : List Char}
    (h : ∀ c, l.head? = some c → jsWs c = false) : trimStartWs l = l := by
  cases l with
  | nil => rfl
  | cons c cs =>
    have hc := h c rfl
    unfold trimStartWs
    rw [List.dropWhile_cons_of_neg (by simp [hc])]

lemma trimEndWs_eq_self {l : List Char}
    (h : ∀ c, l.getLast? = some c → jsWs c = false) : trimEndWs l = l := by
  unfold trimEndWs
  have h' : ∀ c, l.reverse.head? = some c → jsWs c = false := by
    intro c hc
    exact h c (by rwa [List.head?_reverse] at hc)
  have he : l.reverse.dropWhile jsWs = l.reverse := trimStartWs_eq_self h'
  rw [he, List.reverse_reverse]

lemma jsTrim_eq_self {l : List Char}
    (h1 : ∀ c, l.head? = some c → jsWs c = false)
    (h2 : ∀ c, l.getLast? = some c → jsWs c = false) : jsTrim l = l := by
  unfold jsTrim
  rw [trimStartWs_eq_self h1, trimEndWs_eq_self h2]

lemma trimEndWs_idem (l : List Char) : trimEndWs (trimEndWs l) = trimEndWs l := by
  unfold trimEndWs
  rw [List.reverse_reverse, dropWhile_idem]

lemma trimStartWs_trimEndWs (l : List Char) :
    trimStartWs (trimEndWs (trimStartWs l)) = trimEndWs (trimStartWs l) := by
  apply trimStartWs_eq_self
  intro c hc
  obtain ⟨t, ht⟩ := trimEndWs_prefixP (trimStartWs l)
  cases hE : trimEndWs (trimStartWs l) with
  | nil => rw [hE] at hc; simp at hc
  | cons a as =>
    rw [hE] at hc ht
    simp only [List.head?_cons, Option.some.injEq] at hc
    subst hc
    have hdw : trimStartWs l = a :: (as ++ t) := by
      rw [← ht]; simp
    exact dropWhile_head_false (p := jsWs)
      (by simpa [trimStartWs] using hdw)

lemma jsTrim_idem (l : List Char) : jsTrim (jsTrim l) = jsTrim l := by
  unfold jsTrim
  rw [trimStartWs_trimEndWs l, trimEndWs_idem]

/-! ### Identity lemmas for the replacement passes -/

lemma scoreTagAt_none_of_not_pre {s : List Char}
    (h : scoreOpen.isPrefixOf s = false) : scoreTagAt s = none := by
  simp [scoreTagAt, h]

lemma scoreGroup_none {s : List Char} (h : findPat scoreOpen s = none) :
    scoreGroup s = none := by
  induction s with
  | nil => rfl
  | cons c cs ih =>
    obtain ⟨h1, h2⟩ := findPat_cons_none h
    simp only [scoreGroup, scoreTagAt_none_of_not_pre h1]
    exact ih h2

lemma removeScoreAux_id {s : List Char} (fuel : Nat)
    (h : findPat scoreOpen s = none) : removeScoreAux fuel s = s := by
  induction fuel generalizing s with
  | zero => rfl
  | succ n ih =>
    cases s with
    | nil => rfl
    | cons c cs =>
      obtain ⟨h1, h2⟩ := findPat_cons_none h
      simp only [removeScoreAux, scoreTagAt_none_of_not_pre h1]
      rw [ih h2]

lemma removeScoreTags_id {s : List Char} (h : findPat scoreOpen s = none) :
    removeScoreTags s = s := removeScoreAux_id _ h

lemma removeThinkAux_id {s : List Char} (fuel : Nat)
    (h : findPat thinkOpen s = none) : removeThinkAux fuel s = s := by
  cases fuel with
  | zero => rfl
  | succ n => simp [removeThinkAux, h]

lemma removeThink_id {s : List Char} (h : findPat thinkOpen s = none) :
    removeThink s = s := removeThinkAux_id _ h

lemma firstFence_none {s : List Char} (h : findPat fence s = none) :
    firstFence s = none := by
  simp [firstFence, h]

lemma removeFirstFence_id {s : List Char} (h : findPat fence s = none) :
    removeFirstFence s = s := by
  simp [removeFirstFence, firstFence_none h]

lemma extractCorrected_none {s : List Char} (h : findPat fence s = none) :
    extractCorrected s = none := by
  simp [extractCorrected, firstFence_none h]

/-! ### Structural lemmas about the replacement passes -/

lemma drop_append_len (a b : List Char) (n : Nat) :
    (a ++ b).drop (a.length + n) = b.drop n := by
  induction a with
  | nil => simp
  | cons c cs ih =>
    have hlen : (c :: cs).length + n = (cs.length + n) + 1 := by
      simp; omega
    rw [List.cons_append, hlen, List.drop_succ_cons, ih]

/-- A well-formed single thinking block is removed whole: when the closing
marker is first found exactly at the end of `mid` and the text after the
block contains no further opening marker, the global replacement deletes
exactly `<think> ++ mid ++ </think>`. -/
lemma removeThink_single (mid post : List Char)
    (hclose : findPat thinkClose (mid ++ (thinkClose ++ post)) = some mid.length)
    (hpost : findPat thinkOpen post = none) :
    removeThink (thinkOpen ++ (mid ++ (thinkClose ++ post))) = post := by
  have hopen : findPat thinkOpen (thinkOpen ++ (mid ++ (thinkClose ++ post)))
      = some 0 :=
    findPat_of_isPrefixOf
      (List.isPrefixOf_iff_prefix.mpr (List.prefix_append _ _))
  have hdrop7 : (thinkOpen ++ (mid ++ (thinkClose ++ post))).drop (0 + 7)
      = mid ++ (thinkClose ++ post) :=
    List.drop_left' (by simp [thinkOpen])
  have hdroprest : (mid ++ (thinkClose ++ post)).drop (mid.length + 8) = post := by
    rw [drop_append_len]
    exact List.drop_left' (by simp [thinkClose])
  obtain ⟨n, hn⟩ : ∃ n, (thinkOpen ++ (mid ++ (thinkClose ++ post))).length
      = n + 1 := ⟨(mid ++ (thinkClose ++ post)).length + 6, by simp [thinkOpen]⟩
  unfold removeThink
  rw [hn]
  simp only [removeThinkAux, hopen, hdrop7, hclose, hdroprest]
  rw [removeThinkAux_id n hpost]
  simp

/-- Decomposition of the first fenced block: when the leftmost fence sits at
the end of `pre` and the leftmost fence of the remainder sits at the end of
`body`, the lazy regex captures exactly `body` (with `post` — and any
further fenced blocks in it — ignored). -/
lemma firstFence_decomp (pre body post : List Char)
    (h1 : findPat fence (pre ++ (fence ++ (body ++ (fence ++ post))))
        = some pre.length)
    (h2 : findPat fence (body ++ (fence ++ post)) = some body.length) :
    firstFence (pre ++ (fence ++ (body ++ (fence ++ post))))
      = some (pre, body, post) := by
  have hdrop : (pre ++ (fence ++ (body ++ (fence ++ post)))).drop (pre.length + 3)
      = body ++ (fence ++ post) := by
    rw [drop_append_len]
    exact List.drop_left' (by simp [fence])
  have htake : (pre ++ (fence ++ (body ++ (fence ++ post)))).take pre.length
      = pre := List.take_left' rfl
  have htake2 : (body ++ (fence ++ post)).take body.length = body :=
    List.take_left' rfl
  have hdrop2 : (body ++ (fence ++ post)).drop (body.length + 3) = post := by
    rw [drop_append_len]
    exact List.drop_left' (by simp [fence])
  simp only [firstFence, h1, hdrop, h2, htake, htake2, hdrop2]

/-- Non-blank lines, trimmed, in order — the lines `processAnalysisResult`
actually buckets. -/
def nonBlankTrimmed (ls : List (List Char)) : List (List Char) :=
  ls.filterMap (fun l => if (jsTrim l).isEmpty then none else some (jsTrim l))

/-- When no line of `lines` matches any section trigger, the fold keeps the
`analysis` cursor throughout and appends every non-blank trimmed line to the
`analysis` bucket, leaving the other buckets untouched. -/
lemma foldl_stepLine_no_triggers (lines : List (List Char)) (acc : Sections)
    (h : ∀ l ∈ lines, securityTrigger l = false ∧ performanceTrigger l = false ∧
        suggestionsTrigger l = false) :
    (lines.foldl stepLine (SectionName.analysis, acc)).2 =
      { acc with analysis := acc.analysis ++ nonBlankTrimmed lines } := by
  induction lines generalizing acc with
  | nil => simp [nonBlankTrimmed]
  | cons l ls ih =>
    obtain ⟨h1, h2, h3⟩ := h l (by simp)
    have hcls : classifyLine SectionName.analysis l = SectionName.analysis := by
      simp [classifyLine, h1, h2, h3]
    have htail : ∀ x ∈ ls, securityTrigger x = false ∧
        performanceTrigger x = false ∧ suggestionsTrigger x = false :=
      fun x hx => h x (by simp [hx])
    by_cases hb : (jsTrim l).isEmpty
    · have hb' : jsTrim l = [] := by simpa using hb
      simp only [List.foldl_cons, stepLine, hcls, hb, if_true]
      rw [ih acc htail]
      have heq : nonBlankTrimmed (l :: ls) = nonBlankTrimmed ls := by
        simp [nonBlankTrimmed, List.filterMap_cons, hb']
      rw [heq]
    · have hb' : ¬ jsTrim l = [] := by simpa using hb
      simp only [List.foldl_cons, stepLine, hcls, hb, if_false]
      rw [ih _ htail]
      have heq : nonBlankTrimmed (l :: ls) = jsTrim l :: nonBlankTrimmed ls := by
        simp [nonBlankTrimmed, List.filterMap_cons, hb']
      rw [heq]
      simp [pushSection, List.append_assoc]

/-! ### Lemmas about the batch orchestrator -/

lemma validateCodeAux_length (net : Nat → FetchResult) (k : Nat)
    (fs : List FileWithContent) :
    (validateCodeAux net k fs).length = fs.length := by
  induction fs generalizing k with
  | nil => rfl
  | cons f fs ih => simp [validateCodeAux, ih]

lemma validateCodeAux_getElem (net : Nat → FetchResult) (k : Nat)
    (fs : List FileWithContent) (i : Nat) (h : i < fs.length)
    (h2 : i < (validateCodeAux net k fs).length) :
    (validateCodeAux net k fs)[i] = processFile fs[i] (net (k + i)) := by
  induction fs generalizing k i with
  | nil => simp at h
  | cons f fs ih =>
    cases i with
    | zero => simp [validateCodeAux]
    | succ j =>
      have hj : j < fs.length := by simpa using h
      have hj2 : j < (validateCodeAux net (k + 1) fs).length := by
        rw [validateCodeAux_length]; exact hj
      have hk : k + (j + 1) = (k + 1) + j := by omega
      rw [hk]
      simp only [validateCodeAux, List.getElem_cons_succ]
      exact ih (k + 1) j hj hj2

/-! ### Claim theorems -/

/-- C2: every extracted score is an integer in [0, 100]; a tag
`<SCORE:N>` with one or more digits is parsed and clamped to the upper
bound (`<SCORE:150>` yields 100); a string with no matching tag — including
`<SCORE:-5>`, which the sign-less digit pattern cannot match — yields
score 0. -/
theorem c2_score_range :
    (∀ s, extractScore s ≤ 100)
    ∧ (∀ s, scoreGroup s = none → extractScore s = 0)
    ∧ extractScore "<SCORE:150>".toList = 100
    ∧ extractScore "<SCORE:-5>".toList = 0
    ∧ scoreGroup "<SCORE:-5>".toList = none := by
  refine ⟨?_, ?_, by decide, by decide, by decide⟩
  · intro s
    unfold extractScore
    cases h : scoreGroup s with
    | none => exact Nat.zero_le 100
    | some ds => exact Nat.min_le_right _ _
  · intro s h
    simp [extractScore, h]

/-- Witness for C2 at the concrete unparsable input `<SCORE:-5>`. -/
theorem c2_score_range_witness : extractScore "<SCORE:-5>".toList = 0 :=
  c2_score_range.2.1 "<SCORE:-5>".toList (by decide)

/-- C3 counterexample: a fenced block whose trimmed interior is empty is a
block that exists, yet `hasCorrections` is false (JS `!!""` is false), so
"if such a block exists ... hasCorrections = true" fails as stated. -/
theorem c3_counterexample :
    extractCorrected "``` ```".toList = some [] ∧
    hasCorrectionsOf "``` ```".toList = false := by decide

/-- C3 (amended): corrected-code extraction uses only the first fenced
block — `correctedCode` is that block's trimmed interior (after the
optional language tag) for any `post`, later blocks in `post` being
ignored — and `hasCorrections` is true exactly when that trimmed interior
is non-empty; with no fenced block, `correctedCode` is unset and
`hasCorrections` is false. -/
theorem c3_first_block :
    (∀ pre body post,
      findPat fence (pre ++ (fence ++ (body ++ (fence ++ post))))
          = some pre.length →
      findPat fence (body ++ (fence ++ post)) = some body.length →
      extractCorrected (pre ++ (fence ++ (body ++ (fence ++ post))))
          = some (jsTrim (stripLang body)) ∧
      hasCorrectionsOf (pre ++ (fence ++ (body ++ (fence ++ post))))
          = !(jsTrim (stripLang body)).isEmpty)
    ∧ (∀ s, findPat fence s = none →
        extractCorrected s = none ∧ hasCorrectionsOf s = false) := by
  constructor
  · intro pre body post h1 h2
    have hf := firstFence_decomp pre body post h1 h2
    constructor
    · simp [extractCorrected, hf]
    · simp [hasCorrectionsOf, extractCorrected, hf]
  · intro s h
    refine ⟨extractCorrected_none h, ?_⟩
    simp [hasCorrectionsOf, extractCorrected_none h]

/-- Witness for C3 on a response with two fenced blocks: the first block
(with a `js` language tag) is extracted, the second is ignored. -/
theorem c3_first_block_witness :
    extractCorrected "Fix: ```js\nx = 1``` and ```second``` more".toList
      = some "x = 1".toList ∧
    hasCorrectionsOf "Fix: ```js\nx = 1``` and ```second``` more".toList
      = true := by
  have hs : "Fix: ```js\nx = 1``` and ```second``` more".toList
      = "Fix: ".toList ++ (fence ++ ("js\nx = 1".toList ++
          (fence ++ " and ```second``` more".toList))) := by decide
  have h := c3_first_block.1 "Fix: ".toList "js\nx = 1".toList
    " and ```second``` more".toList (by decide) (by decide)
  rw [hs]
  exact ⟨h.1.trans (by decide), h.2.trans (by decide)⟩

/-- C7: a polled status id ≤ 2 is non-terminal and schedules exactly one
further poll; any status id > 2 is terminal and surfaces stdout when
non-empty, otherwise stderr prefixed with an error string; the scripted
judge 1, 1, 3/"OK" surfaces "OK" after exactly two non-terminal polls. -/
theorem c7_poll_loop :
    (∀ r rs, r.statusId ≤ 2 →
        runPolls (r :: rs) = (runPolls rs).map (fun p => (p.1, p.2 + 1)))
    ∧ (∀ r rs, 2 < r.statusId → runPolls (r :: rs) = some (surfaceOutput r, 0))
    ∧ (∀ r s, r.stdout = some s → s.isEmpty = false → surfaceOutput r = s)
    ∧ (∀ r, r.stdout = none ∨ r.stdout = some [] →
        surfaceOutput r = "Error: ".toList ++ r.stderr)
    ∧ runPolls [⟨1, none, []⟩, ⟨1, none, []⟩, ⟨3, some "OK".toList, []⟩]
        = some ("OK".toList, 2) := by
  refine ⟨?_, ?_, ?_, ?_, by decide⟩
  · intro r rs h
    simp [runPolls, h]
  · intro r rs h
    simp [runPolls, Nat.not_le.mpr h]
  · intro r s hs he
    simp [surfaceOutput, jsOrStr, hs, he]
  · rintro r (h | h) <;> simp [surfaceOutput, jsOrStr, h]

/-- Witness for C7: one non-terminal poll response wraps the tail run and
counts it. -/
theorem c7_poll_loop_witness :
    runPolls [⟨1, none, []⟩] = (runPolls []).map (fun p => (p.1, p.2 + 1)) :=
  c7_poll_loop.1 ⟨1, none, []⟩ [] (by decide)

/-- C8: a transport-level success whose body lacks
`choices[0].message.content` — or carries it as the empty string — builds
the outcome from the fallback text "No response received.", with score 0,
no corrections, and that fallback as the narrative; it is not routed
through the per-file failure branch. -/
theorem c8_empty_content_fallback (f : FileWithContent) :
    processFile f (FetchResult.ok none) = processFile f (FetchResult.ok (some [])) ∧
    (processFile f (FetchResult.ok none)).result = noResponseText ∧
    (processFile f (FetchResult.ok none)).score = 0 ∧
    (processFile f (FetchResult.ok none)).correctedCode = none ∧
    (processFile f (FetchResult.ok none)).hasCorrections = false := by
  exact ⟨rfl, rfl, rfl, rfl, rfl⟩

/-- C9: "Execution failed." is produced only by a failed submit request; a
failed status poll escapes `runCode`'s handler, so polling stops and the
displayed output remains the "Running..." placeholder written before the
submit. -/
theorem c9_execution_errors :
    runCode SubmitOutcome.submitFailed = "Execution failed.".toList
    ∧ (∀ (t : List Char) (pre : List PollResponse) (rest : List PollStep),
        (∀ r ∈ pre, r.statusId ≤ 2) →
        runCode (SubmitOutcome.submitted t
            (pre.map PollStep.respond ++ PollStep.fail :: rest))
          = "Running...".toList) := by
  refine ⟨rfl, ?_⟩
  intro t pre rest h
  show pollLoop (pre.map PollStep.respond ++ PollStep.fail :: rest)
      "Running...".toList = "Running...".toList
  induction pre with
  | nil => rfl
  | cons r rs ih =>
    have hr := h r (by simp)
    simp only [List.map_cons, List.cons_append, pollLoop, hr, if_true]
    exact ih (fun x hx => h x (by simp [hx]))

/-- Witness for C9: after two non-terminal polls a failing poll request
leaves "Running..." displayed. -/
theorem c9_execution_errors_witness :
    runCode (SubmitOutcome.submitted "tok".toList
        (([⟨1, none, []⟩, ⟨2, none, []⟩] : List PollResponse).map
            PollStep.respond ++ PollStep.fail :: []))
      = "Running...".toList :=
  c9_execution_errors.2 "tok".toList
    ([⟨1, none, []⟩, ⟨2, none, []⟩] : List PollResponse) [] (by decide)

/-- C1: the batch yields exactly one outcome per input file; outcome `i`
depends only on file `i` and on how request `i` settles (so sibling
failures neither cancel nor alter it); every failed request yields a
synthetic outcome with score 0, no corrections, and an error narrative. -/
theorem c1_batch_outcomes :
    (∀ files (net : Nat → FetchResult),
        (validateCode files net).length = files.length)
    ∧ (∀ files (net : Nat → FetchResult) (i : Nat)
        (h : i < files.length) (h2 : i < (validateCode files net).length),
        (validateCode files net)[i] = processFile files[i] (net i))
    ∧ (∀ f fr, fr.isFailure = true →
        (processFile f fr).score = 0 ∧
        (processFile f fr).hasCorrections = false ∧
        (processFile f fr).result = "Error: ".toList ++ fr.failureMessage)
    ∧ (∀ files (net net' : Nat → FetchResult) (i : Nat)
        (h : i < files.length)
        (h2 : i < (validateCode files net).length)
        (h3 : i < (validateCode files net').length),
        net i = net' i →
        (validateCode files net)[i] = (validateCode files net')[i]) := by
  have hget : ∀ files (net : Nat → FetchResult) (i : Nat)
      (h : i < files.length) (h2 : i < (validateCode files net).length),
      (validateCode files net)[i] = processFile files[i] (net i) := by
    intro files net i h h2
    have hg := validateCodeAux_getElem net 0 files i h h2
    simpa using hg
  refine ⟨?_, hget, ?_, ?_⟩
  · intro files net
    exact validateCodeAux_length net 0 files
  · intro f fr hf
    cases fr with
    | ok content => simp [FetchResult.isFailure] at hf
    | networkError msg => exact ⟨rfl, rfl, rfl⟩
    | httpError status => exact ⟨rfl, rfl, rfl⟩
    | bodyError msg => exact ⟨rfl, rfl, rfl⟩
  · intro files net net' i h h2 h3 hnet
    rw [hget files net i h h2, hget files net' i h h3, hnet]

/-- A sample file used to instantiate witnesses. -/
def sampleFile : FileWithContent :=
  { name := "a.py".toList
    path := "src/a.py".toList
    content := "print(1)".toList
    extension := "py".toList }

/-- A sample per-file settlement: the second request rejects, the others
succeed. -/
def sampleNet : Nat → FetchResult :=
  fun i =>
    if i = 1 then FetchResult.networkError none
    else FetchResult.ok (some "<SCORE:90>fine".toList)

/-- Witness for C1: a three-file batch with the middle request rejecting
still yields three outcomes, and the failed file's outcome is error
shaped. -/
theorem c1_batch_outcomes_witness :
    (validateCode [sampleFile, sampleFile, sampleFile] sampleNet).length = 3 ∧
    (processFile sampleFile (FetchResult.networkError none)).score = 0 :=
  ⟨c1_batch_outcomes.1 [sampleFile, sampleFile, sampleFile] sampleNet,
   (c1_batch_outcomes.2.2.1 sampleFile (FetchResult.networkError none)
      rfl).1⟩

/-- C4: the narrative shown for a response consisting of a thinking block
followed by visible text is exactly the visible text: the first fenced
block, the score tags and the thinking span are removed by the two-stage
pipeline (`processFile` stores the fence-stripped trimmed text,
`processAnalysisResult` strips score and think tags), and no trace of the
discarded interior remains, whatever it contains — including newlines. -/
theorem c4_think_removal (mid : List Char)
    (h1 : findPat fence
        (thinkOpen ++ (mid ++ (thinkClose ++ "Visible text".toList))) = none)
    (h2 : findPat scoreOpen
        (thinkOpen ++ (mid ++ (thinkClose ++ "Visible text".toList))) = none)
    (h3 : findPat thinkClose (mid ++ (thinkClose ++ "Visible text".toList))
        = some mid.length) :
    displayedNarrative
        (thinkOpen ++ (mid ++ (thinkClose ++ "Visible text".toList)))
      = "Visible text".toList := by
  have htrim : jsTrim (thinkOpen ++ (mid ++ (thinkClose ++ "Visible text".toList)))
      = thinkOpen ++ (mid ++ (thinkClose ++ "Visible text".toList)) := by
    apply jsTrim_eq_self
    · intro c hc
      have : c = '<' := by
        have := hc
        simp [thinkOpen] at this
        exact this.symm
      subst this
      decide
    · intro c hc
      have hassoc : thinkOpen ++ (mid ++ (thinkClose ++ "Visible text".toList))
          = (thinkOpen ++ mid ++ thinkClose) ++ "Visible text".toList := by
        simp [List.append_assoc]
      rw [hassoc, List.getLast?_append_of_ne_nil _ (by decide)] at hc
      have : c = 't' := by
        have := hc
        simp at this
        exact this.symm
      subst this
      decide
  unfold displayedNarrative cleanedNarrative storedNarrative
  rw [removeFirstFence_id h1, htrim, removeScoreTags_id h2,
    removeThink_single mid "Visible text".toList h3 (by decide)]
  decide

/-- Witness for C4 at the spec's own example
`<think>internal notes</think>Visible text`. -/
theorem c4_think_removal_witness :
    displayedNarrative
        (thinkOpen ++ ("internal notes".toList ++
          (thinkClose ++ "Visible text".toList)))
      = "Visible text".toList :=
  c4_think_removal "internal notes".toList (by decide) (by decide) (by decide)

/-- C5 counterexample: on the claim's own four-line example the line
"Suggest refactor" contains neither the substring "suggestion" nor
"recommendation", so the cursor stays on `security` and the claimed
`suggestions = ["Suggest refactor"]` is false — the line lands in
`security` instead. -/
theorem c5_counterexample :
    (processAnalysisResult
        "intro\nSecurity issue found\nstill here\nSuggest refactor".toList).suggestions
      = [] ∧
    (processAnalysisResult
        "intro\nSecurity issue found\nstill here\nSuggest refactor".toList).security
      = ["Security issue found".toList, "still here".toList,
          "Suggest refactor".toList] ∧
    (processAnalysisResult
        "intro\nSecurity issue found\nstill here\nSuggest refactor".toList).suggestions
      ≠ ["Suggest refactor".toList] := by decide

/-- C5 (amended): the scan keeps a single sticky cursor initialised to
`analysis`, triggers are checked per line in the fixed order security →
performance → suggestions, a line with no trigger keeps the cursor, and
every non-blank line (trimmed, including the switching line itself) is
appended to the current section; on the example lines the yield is
`analysis = ["intro"]`,
`security = ["Security issue found", "still here", "Suggest refactor"]`
and `suggestions = []`, because "Suggest refactor" contains neither
"suggestion" nor "recommendation". -/
theorem c5_classification :
    processAnalysisResult
        "intro\nSecurity issue found\nstill here\nSuggest refactor".toList
      = { analysis := ["intro".toList],
          suggestions := [],
          security := ["Security issue found".toList, "still here".toList,
            "Suggest refactor".toList],
          performance := [] }
    ∧ (∀ cur line, securityTrigger line = true →
        classifyLine cur line = SectionName.security)
    ∧ (∀ cur line, securityTrigger line = false →
        performanceTrigger line = true →
        classifyLine cur line = SectionName.performance)
    ∧ (∀ cur line, securityTrigger line = false →
        performanceTrigger line = false → suggestionsTrigger line = true →
        classifyLine cur line = SectionName.suggestions)
    ∧ (∀ cur line, securityTrigger line = false →
        performanceTrigger line = false → suggestionsTrigger line = false →
        classifyLine cur line = cur)
    ∧ (∀ st line, (jsTrim line).isEmpty = false →
        stepLine st line
          = (classifyLine st.1 line,
              pushSection st.2 (classifyLine st.1 line) (jsTrim line)))
    ∧ (∀ st line, (jsTrim line).isEmpty = true →
        stepLine st line = (classifyLine st.1 line, st.2)) := by
  refine ⟨by decide, ?_, ?_, ?_, ?_, ?_, ?_⟩
  · intro cur line h
    simp [classifyLine, h]
  · intro cur line h1 h2
    simp [classifyLine, h1, h2]
  · intro cur line h1 h2 h3
    simp [classifyLine, h1, h2, h3]
  · intro cur line h1 h2 h3
    simp [classifyLine, h1, h2, h3]
  · intro st line h
    simp [stepLine, h]
  · intro st line h
    simp [stepLine, h]

/-- Witness for C5: the trigger-free line "still here" keeps the
`security` cursor. -/
theorem c5_classification_witness :
    classifyLine SectionName.security "still here".toList
      = SectionName.security :=
  c5_classification.2.2.2.2.1 SectionName.security "still here".toList
    (by decide) (by decide) (by decide)

/-- C6: the parser is total by construction, and on input with no score
tag, no fenced block, no think tag and no section-trigger keyword it
degrades to the defaults: score 0, no corrections, and every non-blank
trimmed line in a single `analysis` section. -/
theorem c6_parser_defaults (raw : List Char)
    (h1 : findPat fence raw = none)
    (h2 : findPat scoreOpen raw = none)
    (h3 : findPat thinkOpen raw = none)
    (h4 : ∀ l ∈ splitOnNl (jsTrim raw),
        securityTrigger l = false ∧ performanceTrigger l = false ∧
        suggestionsTrigger l = false) :
    extractScore raw = 0 ∧
    extractCorrected raw = none ∧
    hasCorrectionsOf raw = false ∧
    processAnalysisResult (storedNarrative raw)
      = { analysis := nonBlankTrimmed (splitOnNl (jsTrim raw)),
          suggestions := [], security := [], performance := [] } := by
  have hscore : extractScore raw = 0 := by
    simp [extractScore, scoreGroup_none h2]
  have hcorr := extractCorrected_none h1
  have hstored : storedNarrative raw = jsTrim raw := by
    unfold storedNarrative
    rw [removeFirstFence_id h1]
  have h2' : findPat scoreOpen (jsTrim raw) = none :=
    findPat_none_mono (jsTrim_le raw) h2
  have h3' : findPat thinkOpen (jsTrim raw) = none :=
    findPat_none_mono (jsTrim_le raw) h3
  have hclean : cleanedNarrative (jsTrim raw) = jsTrim raw := by
    unfold cleanedNarrative
    rw [removeScoreTags_id h2', removeThink_id h3', jsTrim_idem]
  refine ⟨hscore, hcorr, by simp [hasCorrectionsOf, hcorr], ?_⟩
  unfold processAnalysisResult
  rw [hstored, hclean,
    foldl_stepLine_no_triggers (splitOnNl (jsTrim raw)) emptySections h4]
  simp [emptySections]

/-- Witness for C6 on a pattern-free two-line input. -/
theorem c6_parser_defaults_witness :
    extractScore "hello\nworld".toList = 0 ∧
    extractCorrected "hello\nworld".toList = none ∧
    hasCorrectionsOf "hello\nworld".toList = false ∧
    processAnalysisResult (storedNarrative "hello\nworld".toList)
      = { analysis := ["hello".toList, "world".toList],
          suggestions := [], security := [], performance := [] } := by
  have h := c6_parser_defaults "hello\nworld".toList
    (by decide) (by decide) (by decide) (by decide)
  exact ⟨h.1, h.2.1, h.2.2.1, h.2.2.2.trans (by decide)⟩

/-- C10: every outcome, on the success branch and on every failure branch,
carries the submitted file's identity and content unchanged: `fileName`,
`path` and `code` equal the file's `name`, `path` and `content`; in the
pure embedding the input file list is read only, never mutated. -/
theorem c10_outcome_identity :
    (∀ f fr, (processFile f fr).fileName = f.name ∧
        (processFile f fr).path = f.path ∧
        (processFile f fr).code = f.content)
    ∧ (∀ files (net : Nat → FetchResult) (i : Nat)
        (h : i < files.length) (h2 : i < (validateCode files net).length),
        (validateCode files net)[i].fileName = files[i].name ∧
        (validateCode files net)[i].path = files[i].path ∧
        (validateCode files net)[i].code = files[i].content) := by
  have hbase : ∀ f fr, (processFile f fr).fileName = f.name ∧
      (processFile f fr).path = f.path ∧
      (processFile f fr).code = f.content := by
    intro f fr
    cases fr with
    | ok content => exact ⟨rfl, rfl, rfl⟩
    | networkError msg => exact ⟨rfl, rfl, rfl⟩
    | httpError status => exact ⟨rfl, rfl, rfl⟩
    | bodyError msg => exact ⟨rfl, rfl, rfl⟩
  refine ⟨hbase, ?_⟩
  intro files net i h h2
  have hg := validateCodeAux_getElem net 0 files i h h2
  have hg' : (validateCode files net)[i] = processFile files[i] (net i) := by
    simpa using hg
  rw [hg']
  exact hbase files[i] (net i)

/-- Witness for C10 on a one-file batch with a failing request. -/
theorem c10_outcome_identity_witness :
    ((validateCode [sampleFile] (fun _ => FetchResult.httpError 500)).get
        ⟨0, by decide⟩).fileName = sampleFile.name ∧
    ((validateCode [sampleFile] (fun _ => FetchResult.httpError 500)).get
        ⟨0, by decide⟩).path = sampleFile.path ∧
    ((validateCode [sampleFile] (fun _ => FetchResult.httpError 500)).get
        ⟨0, by decide⟩).code = sampleFile.content :=
  c10_outcome_identity.2 [sampleFile] (fun _ => FetchResult.httpError 500) 0
    (by decide) (by decide)

end CodeAmplifier
